import Mathlib

/-
  Shallow embedding of NavidroFM (src/app.py) used to check the natural
  language specification against the code.  Strings are modelled as lists
  of characters; every definition is translated from the Python source,
  with the source location noted in its doc comment.
-/

namespace NavidroFM

/-- Strings of the program, modelled as lists of characters. -/
abbrev Str := List Char

/-- The character class of Python's regex where word characters match:
letters, digits and the underscore (ASCII model). -/
def isWordChar (c : Char) : Bool := c.isAlphanum || c == '_'

/-- One step of the whitespace-run collapse performed by the second
regex substitution in normalize_for_matching (app.py:355): every maximal
run of whitespace becomes a single blank. -/
def collapseWs : Str → Str
  | [] => []
  | [c] => [if c.isWhitespace then ' ' else c]
  | c1 :: c2 :: cs =>
    if c1.isWhitespace && c2.isWhitespace then collapseWs (c2 :: cs)
    else (if c1.isWhitespace then ' ' else c1) :: collapseWs (c2 :: cs)

/-- Removal of leading and trailing whitespace, the final strip of
normalize_for_matching (app.py:356). -/
def stripWs (l : Str) : Str :=
  ((l.dropWhile Char.isWhitespace).reverse.dropWhile Char.isWhitespace).reverse

/-- The function normalize_for_matching (app.py:351-356): lowercase,
drop characters that are neither word characters nor whitespace,
collapse whitespace runs, strip the ends. -/
def normalize (l : Str) : Str :=
  stripWs (collapseWs ((l.map Char.toLower).filter
    (fun c => isWordChar c || c.isWhitespace)))

/-- Decides whether the first list is an initial segment of the second;
used to express Python's substring operator. -/
def prefOf : Str → Str → Bool
  | [], _ => true
  | _ :: _, [] => false
  | a :: as, b :: bs => if a = b then prefOf as bs else false

/-- Python's substring containment operator (the in operator on
strings): the needle occurs contiguously inside the haystack. -/
def substrOf (n : Str) : Str → Bool
  | [] => n.isEmpty
  | b :: bs => prefOf n (b :: bs) || substrOf n bs

/-- The mutual containment test of app.py:385-386: one string is a
substring of the other, in either direction. -/
def mutualSubstr (x y : Str) : Bool := substrOf x y || substrOf y x

/-- The comma-space join applied to the artist name list of a search
result (app.py:376). -/
def joinComma : List Str → Str
  | [] => []
  | [a] => a
  | a :: b :: rest => a ++ [',', ' '] ++ joinComma (b :: rest)

/-- A YouTube Music search result as consumed by
search_ytmusic_track: external id, title and the artist name list
(app.py:373-380). -/
structure YtResult where
  videoId : Str
  title : Str
  artists : List Str
deriving DecidableEq, Repr

/-- The eligibility test of app.py:385-388: the normalized target
artist and the normalized result artist contain each other in one
direction, and likewise for the titles.  The arguments nA and nT are
the already-normalized target artist and title (app.py:367-368). -/
def eligibleB (nA nT : Str) (r : YtResult) : Bool :=
  mutualSubstr nA (normalize (joinComma r.artists)) &&
  mutualSubstr nT (normalize r.title)

/-- The score computed at app.py:389-398: two points for an exactly
equal normalized field, one point for a one-way containment, summed
over the artist and title fields. -/
def resultScore (nA nT : Str) (r : YtResult) : Nat :=
  (if nA = normalize (joinComma r.artists) then 2
   else if mutualSubstr nA (normalize (joinComma r.artists)) then 1 else 0)
  + (if nT = normalize r.title then 2
     else if mutualSubstr nT (normalize r.title) then 1 else 0)

/-- The selection loop skeleton of app.py:373-402: walk the result
list keeping the current best candidate and best score, replacing them
only on a strictly larger score of an eligible result. -/
def bestScan (e : α → Bool) (f : α → Nat) :
    List α → Option α → Nat → Option α × Nat
  | [], best, bs => (best, bs)
  | r :: rs, best, bs =>
    if e r then
      if bs < f r then bestScan e f rs (some r) (f r)
      else bestScan e f rs best bs
    else bestScan e f rs best bs

/-- The match selection of search_ytmusic_track (app.py:370-405):
run the scan from no candidate and score zero, then reject the outcome
when there is no best match or its score is below two. -/
def selectBestMatch (artist title : Str) (results : List YtResult) :
    Option YtResult :=
  let nA := normalize artist
  let nT := normalize title
  let p := bestScan (eligibleB nA nT) (resultScore nA nT) results none 0
  match p.1 with
  | none => none
  | some b => if p.2 < 2 then none else some b

/-- One entry of an album's track listing as consumed by the
enrichment step of search_ytmusic_track (app.py:433-446). -/
structure AlbumTrack where
  videoId : Str
  title : Str
deriving DecidableEq, Repr

/-- The track-number loop of app.py:436-446 with its running index:
for each album track, compare the external id, then the normalized
title, returning the current one-based index on the first hit.  The
argument nst is the normalized search title (app.py:434). -/
def trackNumGo (vid nst : Str) : List AlbumTrack → Nat → Nat
  | [], _ => 1
  | t :: ts, idx =>
    if t.videoId = vid then idx
    else if normalize t.title = nst then idx
    else trackNumGo vid nst ts (idx + 1)

/-- The track number resolved for a match (app.py:420, 434-446):
the loop starts at index one and the number defaults to one when no
album track matches. -/
def trackNumberOf (vid searchTitle : Str) (tracks : List AlbumTrack) : Nat :=
  trackNumGo vid (normalize searchTitle) tracks 1

/-- One track entry of a feed response: name, artist name list and
album, the fields read by fetch_lastfm_tracks (app.py:309-312). -/
structure FeedTrack where
  name : Str
  artists : List Str
  album : Str
deriving DecidableEq, Repr

/-- The first artist name of a feed entry, empty when the artist list
is empty (app.py:312). -/
def firstArtistName (t : FeedTrack) : Str :=
  match t.artists with
  | [] => []
  | a :: _ => a

/-- The deduplication key of app.py:313: the first artist name and the
track name joined by a colon, with no case folding. -/
def trackKey (t : FeedTrack) : Str :=
  firstArtistName t ++ ':' :: t.name

/-- The inner for-loop of fetch_lastfm_tracks over one feed response
(app.py:309-321): append entries whose key is unseen and whose name
and first artist name are non-empty, record the key, count the new
entries, and break out once the accumulated list reaches the fetch
count.  Returns the accumulated list, the seen-key set and the number
of entries added from this response. -/
def addTracks (fetchCount : Nat) :
    List FeedTrack → List FeedTrack → List Str →
    List FeedTrack × List Str × Nat
  | [], acc, seen => (acc, seen, 0)
  | t :: ts, acc, seen =>
    if trackKey t ∉ seen ∧ t.name ≠ [] ∧ firstArtistName t ≠ [] then
      let acc2 := acc ++ [t]
      let seen2 := trackKey t :: seen
      if fetchCount ≤ acc2.length then (acc2, seen2, 1)
      else
        let r := addTracks fetchCount ts acc2 seen2
        (r.1, r.2.1, r.2.2 + 1)
    else addTracks fetchCount ts acc seen

/-- The while-loop of fetch_lastfm_tracks (app.py:294-334).  Each
iteration consumes one element of the response sequence; its fuel is
the remaining attempt budget.  The loop returns the accumulated list
when the fetch count is reached, when the attempt budget is spent,
when a response is empty, when a response adds nothing new, or when no
further response is available (the transport-error exit, which returns
what has been collected so far). -/
def fetchLoop (fetchCount : Nat) :
    Nat → List (List FeedTrack) → List FeedTrack → List Str → List FeedTrack
  | 0, _, acc, _ => acc
  | _ + 1, [], acc, _ => acc
  | n + 1, resp :: rest, acc, seen =>
    if fetchCount ≤ acc.length then acc
    else if resp = [] then acc
    else
      let r := addTracks fetchCount resp acc seen
      if r.2.2 = 0 then r.1
      else fetchLoop fetchCount n rest r.1 r.2.1

/-- The function fetch_lastfm_tracks (app.py:282-337): the fetch count
is three times the requested number of tracks (backup multiplier), the
attempt budget is twenty, and the loop starts from an empty list and
an empty seen-key set. -/
def fetch_lastfm_tracks (numTracks : Nat)
    (responses : List (List FeedTrack)) : List FeedTrack :=
  fetchLoop (numTracks * 3) 20 responses [] []

/-- The metadata record returned by search_ytmusic_track on a match
(app.py:464-473). -/
structure YtInfo where
  video_id : Str
  title : Str
  artist : Str
  album : Str
  year : Str
  track_number : Nat
  cover_url : Option Str
  url : Str
deriving DecidableEq, Repr

/-- The outcome of one acquisition attempt in the sync loop of
sync_playlist (app.py:952-977): the track is already in the library,
it was downloaded with the given metadata, it was not found on the
external catalog, or its download failed. -/
inductive AcqOutcome where
  | alreadyPresent (songId : Str)
  | acquired (info : YtInfo)
  | notFound
  | downloadFailed
deriving DecidableEq, Repr

/-- Whether an acquisition outcome counts toward the success count
(app.py:954-973). -/
def acqSuccess : AcqOutcome → Bool
  | .alreadyPresent _ => true
  | .acquired _ => true
  | .notFound => false
  | .downloadFailed => false

/-- The state accumulated by the sync loop (app.py:935-938): the
success count, the number of candidates consumed, the song ids of
already-present tracks and the metadata of downloaded tracks. -/
structure LoopResult where
  successCount : Nat
  consumed : Nat
  songIds : List Str
  downloadedTracks : List YtInfo
deriving DecidableEq, Repr

/-- The while-loop of sync_playlist (app.py:942-979) over an abstract
per-candidate acquirer: while the success count is below the target
and candidates remain, attempt the next candidate; an already-present
track appends its song id and counts, a downloaded track appends its
metadata and counts, a not-found or failed download consumes the
candidate without counting. -/
def reconcile (acq : FeedTrack → AcqOutcome) (target : Nat) :
    List FeedTrack → Nat → LoopResult
  | [], succ => ⟨succ, 0, [], []⟩
  | c :: cs, succ =>
    if succ < target then
      match acq c with
      | .alreadyPresent i =>
        let r := reconcile acq target cs (succ + 1)
        ⟨r.successCount, r.consumed + 1, i :: r.songIds, r.downloadedTracks⟩
      | .acquired info =>
        let r := reconcile acq target cs (succ + 1)
        ⟨r.successCount, r.consumed + 1, r.songIds, info :: r.downloadedTracks⟩
      | .notFound =>
        let r := reconcile acq target cs succ
        ⟨r.successCount, r.consumed + 1, r.songIds, r.downloadedTracks⟩
      | .downloadFailed =>
        let r := reconcile acq target cs succ
        ⟨r.successCount, r.consumed + 1, r.songIds, r.downloadedTracks⟩
    else ⟨succ, 0, [], []⟩

/-- One song entry of a search3 response, reduced to its id field; an
absent id is modelled by the empty string, matching Python falsiness
(app.py:776-777). -/
structure NavSong where
  id : Str
deriving DecidableEq, Repr

/-- A library search oracle: maps an artist and title to either a
transport error or a list of matching songs. -/
abbrev NavSearch := Str → Str → Except Str (List NavSong)

/-- The id taken from a search3 response (app.py:775-781): the id of
the first song, provided the list is non-empty and the id truthy. -/
def firstSongId : List NavSong → Option Str
  | [] => none
  | s :: _ => if s.id = [] then none else some s.id

/-- One library search with its surrounding try-block
(app.py:762-788): a transport error yields no id, just as an empty or
id-less result does. -/
def searchOnce (lk : NavSearch) (a t : Str) : Option Str :=
  match lk a t with
  | .error _ => none
  | .ok songs => firstSongId songs

/-- Whether a downloaded track has both a non-empty artist and
non-empty title, the guard of app.py:759-760 and 799-800. -/
def hasFields (t : YtInfo) : Bool := !(t.artist.isEmpty || t.title.isEmpty)

/-- The first resolution pass of scan_and_get_songs_from_directory
(app.py:755-788): tracks missing a field are skipped entirely, a found
id is appended, and every other track joins the not-found list. -/
def firstPass (lk : NavSearch) : List YtInfo → List Str × List YtInfo
  | [] => ([], [])
  | t :: ts =>
    if hasFields t then
      match searchOnce lk t.artist t.title with
      | some i =>
        let p := firstPass lk ts
        (i :: p.1, p.2)
      | none =>
        let p := firstPass lk ts
        (p.1, t :: p.2)
    else firstPass lk ts

/-- The single retry pass of scan_and_get_songs_from_directory
(app.py:795-822): successes are appended, failures are dropped. -/
def retryPass (lk : NavSearch) : List YtInfo → List Str
  | [] => []
  | t :: ts =>
    if hasFields t then
      match searchOnce lk t.artist t.title with
      | some i => i :: retryPass lk ts
      | none => retryPass lk ts
    else retryPass lk ts

/-- The per-track resolution of scan_and_get_songs_from_directory
after quiescence (app.py:753-825): the first pass over all downloaded
tracks followed, when the not-found list is non-empty, by exactly one
retry pass over it, whose successes are appended. -/
def scanResolve (lk1 lk2 : NavSearch) (dl : List YtInfo) : List Str :=
  let p := firstPass lk1 dl
  if p.2 = [] then p.1 else p.1 ++ retryPass lk2 p.2

/-- The settling delay of app.py:747: the downloaded-track count
clamped between five and thirty. -/
def settleWaitTime (dl : List YtInfo) : Nat := min (max dl.length 5) 30

/-- The pre-retry delay of app.py:791: twice the not-found count,
capped at thirty. -/
def retryWaitTime (nf : List YtInfo) : Nat := min (nf.length * 2) 30

/-- The clamp function of the specification: min-max clamping of a
value between a lower and an upper bound. -/
def clampNat (x lo hi : Nat) : Nat := min (max x lo) hi

/-- The media-server playlist store: contents by playlist id. -/
abbrev ServerState := Str → List Str

/-- The request issued by update_playlist: a createPlaylist call either
carrying song ids or carrying none (app.py:838-847). -/
inductive UpdateReq where
  | withSongs (pid : Str) (ids : List Str)
  | clearOnly (pid : Str)
deriving DecidableEq, Repr

/-- Modelled from the spec: the media-server createPlaylist endpoint
given a playlist id (spec section 6), which is external to this
repository — it replaces the playlist's full contents with the given
songs, or clears it when no song ids are attached. -/
def applyUpdate (st : ServerState) : UpdateReq → ServerState
  | .withSongs pid ids => fun p => if p = pid then ids else st p
  | .clearOnly pid => fun p => if p = pid then [] else st p

/-- The request chosen by update_playlist (app.py:838-847): song ids
are attached exactly when the sequence is non-empty; an empty
sequence issues the clearing form of the call. -/
def updateRequest (pid : Str) (ids : List Str) : UpdateReq :=
  match ids with
  | [] => .clearOnly pid
  | _ :: _ => .withSongs pid ids

/-- The effect of one update_playlist call on the server
(app.py:833-852 together with the server semantics of applyUpdate). -/
def publishPlaylist (st : ServerState) (pid : Str) (ids : List Str) :
    ServerState :=
  applyUpdate st (updateRequest pid ids)

/-- The external collaborators of one playlist sync after fetching,
as raw fallible operations: the filesystem calls of app.py:912-932,
the library search of search_navidrome_track, the catalog search of
search_ytmusic_track, the download of download_track_ytmusic, the
scan-and-resolve body of scan_and_get_songs_from_directory and the
update request of update_playlist. -/
structure SyncEnv where
  dirExists : Bool
  dirFiles : List Str
  unlink : Str → Except Str Unit
  cleanup : Except Str Unit
  mkdir : Except Str Unit
  chmodDir : Except Str Unit
  searchNavRaw : Str → Str → Except Str (Option Str)
  searchYtRaw : Str → Str → Except Str (Option YtInfo)
  downloadRaw : YtInfo → Except Str Bool
  scanRaw : List YtInfo → Except Str (List Str)
  updateRaw : List Str → Except Str Unit

/-- search_navidrome_track with its internal try-block
(app.py:650-669): a transport error is caught and yields no id. -/
def searchNavCaught (env : SyncEnv) (a t : Str) : Option Str :=
  match env.searchNavRaw a t with
  | .ok v => v
  | .error _ => none

/-- search_ytmusic_track with its outer try-block (app.py:358-477):
any error is caught and yields no match. -/
def searchYtCaught (env : SyncEnv) (a t : Str) : Option YtInfo :=
  match env.searchYtRaw a t with
  | .ok v => v
  | .error _ => none

/-- download_track_ytmusic with its try-blocks (app.py:479-533):
timeouts and errors are caught and reported as a failed download. -/
def downloadCaught (env : SyncEnv) (i : YtInfo) : Bool :=
  match env.downloadRaw i with
  | .ok b => b
  | .error _ => false

/-- scan_and_get_songs_from_directory with its outer try-block
(app.py:701-831): any error is caught and yields the empty id list. -/
def scanCaught (env : SyncEnv) (dl : List YtInfo) : List Str :=
  match env.scanRaw dl with
  | .ok v => v
  | .error _ => []

/-- update_playlist with its try-block (app.py:835-852): any error is
caught and logged. -/
def updateCaught (env : SyncEnv) (ids : List Str) : Unit :=
  match env.updateRaw ids with
  | .ok _ => ()
  | .error _ => ()

/-- The artist string the sync loop passes on for one candidate
(app.py:947): the first artist name, defaulting to Unknown when the
artist list is empty. -/
def trackArtistOrUnknown (t : FeedTrack) : Str :=
  match t.artists with
  | [] => ['U', 'n', 'k', 'n', 'o', 'w', 'n']
  | a :: _ => a

/-- The per-candidate acquisition of sync_playlist (app.py:952-977),
assembled from the internally-caught collaborator calls: a library hit
short-circuits as already present; otherwise a catalog match is
downloaded, a failed download or a missing match consuming the
candidate without success. -/
def acqOf (env : SyncEnv) (t : FeedTrack) : AcqOutcome :=
  match searchNavCaught env (trackArtistOrUnknown t) t.name with
  | some sid => .alreadyPresent sid
  | none =>
    match searchYtCaught env (trackArtistOrUnknown t) t.name with
    | none => .notFound
    | some info =>
      if downloadCaught env info then .acquired info else .downloadFailed

/-- The directory preparation of sync_playlist (app.py:910-932).  When
the playlist directory exists, old files are deleted with each unlink
inside its own try-block and the playlist cleanup call is itself
caught, so this branch never fails.  When it does not exist, the mkdir
and chmod calls are executed outside any try-block, so their errors
propagate. -/
def prepDir (env : SyncEnv) : Except Str Unit :=
  if env.dirExists then
    let fc := env.dirFiles.countP (fun f =>
      match env.unlink f with
      | .ok _ => true
      | .error _ => false)
    let _ := if 0 < fc then
      (match env.cleanup with
       | .ok _ => ()
       | .error _ => ()) else ()
    Except.ok ()
  else
    match env.mkdir with
    | .error e => .error e
    | .ok _ =>
      match env.chmodDir with
      | .error e => .error e
      | .ok _ => Except.ok ()

/-- The remainder of sync_playlist once fetching has produced
candidates and the playlist id is known (app.py:910-995): prepare the
directory, run the sync loop, resolve downloaded tracks when any
exist, and issue the playlist update. -/
def syncAfterFetch (env : SyncEnv) (target : Nat) (cands : List FeedTrack) :
    Except Str Unit :=
  match prepDir env with
  | .error e => .error e
  | .ok _ =>
    let r := reconcile (acqOf env) target cands 0
    let ids := if r.downloadedTracks = [] then r.songIds
      else r.songIds ++ scanCaught env r.downloadedTracks
    let _ := updateCaught env ids
    Except.ok ()

/-- A sync environment whose playlist directory is missing and whose
mkdir call fails; everything else succeeds. -/
def envMkdirFail : SyncEnv where
  dirExists := false
  dirFiles := []
  unlink := fun _ => .ok ()
  cleanup := .ok ()
  mkdir := .error ['m', 'k', 'd', 'i', 'r']
  chmodDir := .ok ()
  searchNavRaw := fun _ _ => .ok none
  searchYtRaw := fun _ _ => .ok none
  downloadRaw := fun _ => .ok false
  scanRaw := fun _ => .ok []
  updateRaw := fun _ => .ok ()

/-- A sync environment whose playlist directory is missing and whose
directory creation succeeds, with per-call failures everywhere else:
the library search, catalog search, download, scan and update calls
all raise. -/
def envCallsFail : SyncEnv where
  dirExists := false
  dirFiles := []
  unlink := fun _ => .error ['u']
  cleanup := .error ['c']
  mkdir := .ok ()
  chmodDir := .ok ()
  searchNavRaw := fun _ _ => .error ['n']
  searchYtRaw := fun _ _ => .error ['y']
  downloadRaw := fun _ => .error ['d']
  scanRaw := fun _ => .error ['s']
  updateRaw := fun _ => .error ['p']

theorem prefOf_self : ∀ l : Str, prefOf l l = true := by
  intro l
  induction l with
  | nil => rfl
  | cons a as ih => simp [prefOf, ih]

theorem substrOf_self (l : Str) : substrOf l l = true := by
  cases l with
  | nil => rfl
  | cons a as => simp [substrOf, prefOf_self]

/-- Claim C6: scoring a result whose artist list is exactly the single
target artist and whose title is exactly the target title is eligible
and yields the maximum score of four, for any non-empty artist and
title. -/
theorem c6_exact_match_max_score (A B vid : Str) (hA : A ≠ []) (hB : B ≠ []) :
    eligibleB (normalize A) (normalize B) ⟨vid, B, [A]⟩ = true ∧
    resultScore (normalize A) (normalize B) ⟨vid, B, [A]⟩ = 4 := by
  constructor
  · simp [eligibleB, joinComma, mutualSubstr, substrOf_self]
  · simp [resultScore, joinComma]

theorem c6_witness :
    eligibleB (normalize ['a']) (normalize ['b']) ⟨['v'], ['b'], [['a']]⟩ = true ∧
    resultScore (normalize ['a']) (normalize ['b']) ⟨['v'], ['b'], [['a']]⟩ = 4 :=
  c6_exact_match_max_score ['a'] ['b'] ['v'] (by decide) (by decide)

/-- Claim C8: for a non-empty downloaded-track list the settling delay
is its length clamped between five and thirty, and for a non-empty
not-found list the pre-retry delay is twice its length clamped between
zero and thirty. -/
theorem c8_wait_clamps (dl nf : List YtInfo) (h1 : dl ≠ []) (h2 : nf ≠ []) :
    settleWaitTime dl = clampNat dl.length 5 30 ∧
    retryWaitTime nf = clampNat (nf.length * 2) 0 30 := by
  refine ⟨rfl, ?_⟩
  simp [retryWaitTime, clampNat]

theorem c8_witness :
    settleWaitTime [⟨['v'], ['t'], ['a'], ['b'], [], 1, none, []⟩] =
      clampNat ([⟨['v'], ['t'], ['a'], ['b'], [], 1, none, []⟩] : List YtInfo).length 5 30 ∧
    retryWaitTime [⟨['v'], ['t'], ['a'], ['b'], [], 1, none, []⟩] =
      clampNat (([⟨['v'], ['t'], ['a'], ['b'], [], 1, none, []⟩] : List YtInfo).length * 2) 0 30 :=
  c8_wait_clamps _ _ (by simp) (by simp)

/-- Claim C9: one update call replaces the playlist's contents with
the given sequence, an empty sequence issues the clearing request with
no song ids attached, and publishing the same sequence twice leaves
the contents equal to that sequence. -/
theorem c9_publish_idempotent (st : ServerState) (pid : Str) (ids : List Str) :
    publishPlaylist st pid ids pid = ids ∧
    publishPlaylist (publishPlaylist st pid ids) pid ids pid = ids ∧
    updateRequest pid [] = UpdateReq.clearOnly pid ∧
    publishPlaylist st pid [] pid = [] := by
  cases ids <;> simp [publishPlaylist, updateRequest, applyUpdate]

/-- Claim C3 counterexample: with an album whose first track matches
the searched title and whose second track carries the matched external
id, the code assigns position one (the earlier title match), not
position two as the claim requires. -/
theorem c3_counterexample :
    trackNumberOf ['v'] ['t'] [⟨['x'], ['t']⟩, ⟨['v'], ['z']⟩] = 1 ∧
    (⟨['v'], ['z']⟩ : AlbumTrack).videoId = ['v'] ∧
    normalize (⟨['x'], ['t']⟩ : AlbumTrack).title = normalize ['t'] ∧
    trackNumberOf ['v'] ['t'] [⟨['x'], ['t']⟩, ⟨['v'], ['z']⟩] ≠ 2 := by
  refine ⟨by decide, rfl, rfl, by decide⟩

theorem trackNumGo_none (vid nst : Str) :
    ∀ (ts : List AlbumTrack) (n : Nat),
      (∀ t ∈ ts, ¬(t.videoId = vid ∨ normalize t.title = nst)) →
      trackNumGo vid nst ts n = 1 := by
  intro ts
  induction ts with
  | nil => intro n _; rfl
  | cons t ts ih =>
    intro n h
    have h0 := h t (List.mem_cons_self t ts)
    push_neg at h0
    simp only [trackNumGo, if_neg h0.1, if_neg h0.2]
    exact ih (n + 1) (fun x hx => h x (List.mem_cons_of_mem t hx))

theorem trackNumGo_at (vid nst : Str) :
    ∀ (ts : List AlbumTrack) (n i : Nat) (h : i < ts.length),
      ((ts.get ⟨i, h⟩).videoId = vid ∨ normalize (ts.get ⟨i, h⟩).title = nst) →
      (∀ (j : Nat) (hj : j < ts.length), j < i →
        ¬((ts.get ⟨j, hj⟩).videoId = vid ∨ normalize (ts.get ⟨j, hj⟩).title = nst)) →
      trackNumGo vid nst ts n = n + i := by
  intro ts
  induction ts with
  | nil => intro n i h; exact absurd h (Nat.not_lt_zero i)
  | cons t ts ih =>
    intro n i h hm hprev
    cases i with
    | zero =>
      simp only [List.get] at hm
      rcases hm with hv | ht
      · simp [trackNumGo, hv]
      · by_cases hv : t.videoId = vid
        · simp [trackNumGo, hv]
        · simp [trackNumGo, hv, ht]
    | succ i =>
      have h0 := hprev 0 (Nat.succ_pos _) (Nat.succ_pos i)
      simp only [List.get] at h0
      push_neg at h0
      simp only [trackNumGo, if_neg h0.1, if_neg h0.2]
      have hlen : i < ts.length := Nat.lt_of_succ_lt_succ h
      have hm' : (ts.get ⟨i, hlen⟩).videoId = vid ∨
          normalize (ts.get ⟨i, hlen⟩).title = nst := by
        simpa using hm
      have hprev' : ∀ (j : Nat) (hj : j < ts.length), j < i →
          ¬((ts.get ⟨j, hj⟩).videoId = vid ∨ normalize (ts.get ⟨j, hj⟩).title = nst) := by
        intro j hj hji
        have := hprev (j + 1) (Nat.succ_lt_succ hj) (Nat.succ_lt_succ hji)
        simpa using this
      rw [ih (n + 1) i hlen hm' hprev']
      omega

/-- Claim C3 (amended): within the enrichment step the track number is
found by a single pass over the album's track list, checking the
external id and then the normalized title on each track in turn; the
first track matching either way determines the one-based position, and
the number defaults to one when no track matches. -/
theorem c3_amended_first_match (vid st : Str) (ts : List AlbumTrack) :
    (∀ (i : Nat) (h : i < ts.length),
      ((ts.get ⟨i, h⟩).videoId = vid ∨
        normalize (ts.get ⟨i, h⟩).title = normalize st) →
      (∀ (j : Nat) (hj : j < ts.length), j < i →
        ¬((ts.get ⟨j, hj⟩).videoId = vid ∨
          normalize (ts.get ⟨j, hj⟩).title = normalize st)) →
      trackNumberOf vid st ts = i + 1) ∧
    ((∀ t ∈ ts, ¬(t.videoId = vid ∨ normalize t.title = normalize st)) →
      trackNumberOf vid st ts = 1) := by
  constructor
  · intro i h hm hprev
    unfold trackNumberOf
    rw [trackNumGo_at vid (normalize st) ts 1 i h hm hprev]
    omega
  · intro hall
    exact trackNumGo_none vid (normalize st) ts 1 hall

theorem c3_amended_witness :
    trackNumberOf ['v'] ['t'] [⟨['v'], ['z']⟩] = 0 + 1 :=
  (c3_amended_first_match ['v'] ['t'] [⟨['v'], ['z']⟩]).1 0 (by decide)
    (Or.inl rfl) (fun j hj hji => absurd hji (by omega))

theorem addTracks_inv (fetchCount : Nat) :
    ∀ (ts acc : List FeedTrack) (seen : List Str),
      (acc.map trackKey).Nodup →
      (∀ t ∈ acc, trackKey t ∈ seen) →
      (∀ t ∈ acc, t.name ≠ [] ∧ firstArtistName t ≠ []) →
      ((addTracks fetchCount ts acc seen).1.map trackKey).Nodup ∧
      (∀ t ∈ (addTracks fetchCount ts acc seen).1,
        trackKey t ∈ (addTracks fetchCount ts acc seen).2.1) ∧
      (∀ t ∈ (addTracks fetchCount ts acc seen).1,
        t.name ≠ [] ∧ firstArtistName t ≠ []) := by
  intro ts
  induction ts with
  | nil => intro acc seen h1 h2 h3; exact ⟨h1, h2, h3⟩
  | cons t ts ih =>
    intro acc seen h1 h2 h3
    by_cases hc : trackKey t ∉ seen ∧ t.name ≠ [] ∧ firstArtistName t ≠ []
    · have hnd : ((acc ++ [t]).map trackKey).Nodup := by
        rw [List.map_append]
        rw [List.nodup_append]
        refine ⟨h1, List.nodup_singleton _, ?_⟩
        intro k hk hk1
        simp only [List.map_cons, List.map_nil, List.mem_singleton] at hk1
        subst hk1
        obtain ⟨t', ht', hkey⟩ := List.mem_map.mp hk
        exact hc.1 (hkey ▸ h2 t' ht')
      have hmem : ∀ x ∈ acc ++ [t], trackKey x ∈ trackKey t :: seen := by
        intro x hx
        rcases List.mem_append.mp hx with hx | hx
        · exact List.mem_cons_of_mem _ (h2 x hx)
        · simp only [List.mem_singleton] at hx
          subst hx
          exact List.mem_cons_self _ _
      have hne : ∀ x ∈ acc ++ [t], x.name ≠ [] ∧ firstArtistName x ≠ [] := by
        intro x hx
        rcases List.mem_append.mp hx with hx | hx
        · exact h3 x hx
        · simp only [List.mem_singleton] at hx
          subst hx
          exact hc.2
      simp only [addTracks, if_pos hc]
      by_cases hl : fetchCount ≤ (acc ++ [t]).length
      · simp only [if_pos hl]
        exact ⟨hnd, hmem, hne⟩
      · simp only [if_neg hl]
        exact ih (acc ++ [t]) (trackKey t :: seen) hnd hmem hne
    · simp only [addTracks, if_neg hc]
      exact ih acc seen h1 h2 h3

theorem fetchLoop_inv (fetchCount : Nat) :
    ∀ (fuel : Nat) (resps : List (List FeedTrack))
      (acc : List FeedTrack) (seen : List Str),
      (acc.map trackKey).Nodup →
      (∀ t ∈ acc, trackKey t ∈ seen) →
      (∀ t ∈ acc, t.name ≠ [] ∧ firstArtistName t ≠ []) →
      ((fetchLoop fetchCount fuel resps acc seen).map trackKey).Nodup ∧
      (∀ t ∈ fetchLoop fetchCount fuel resps acc seen,
        t.name ≠ [] ∧ firstArtistName t ≠ []) := by
  intro fuel
  induction fuel with
  | zero => intro resps acc seen h1 _ h3; exact ⟨h1, h3⟩
  | succ n ih =>
    intro resps acc seen h1 h2 h3
    cases resps with
    | nil => exact ⟨h1, h3⟩
    | cons resp rest =>
      simp only [fetchLoop]
      split
      · exact ⟨h1, h3⟩
      · split
        · exact ⟨h1, h3⟩
        · obtain ⟨a1, a2, a3⟩ := addTracks_inv fetchCount resp acc seen h1 h2 h3
          split
          · exact ⟨a1, a3⟩
          · exact ih rest _ _ a1 a2 a3

/-- Claim C2 counterexample: a feed response holding the same track in
two letter cases yields a candidate list keeping both entries, whose
identity keys are equal after case-folding; the deduplication key is
the exact, not case-folded, artist-colon-title string. -/
theorem c2_counterexample :
    fetch_lastfm_tracks 1 [[⟨['T'], [['A']], []⟩, ⟨['t'], [['a']], []⟩]] =
      [⟨['T'], [['A']], []⟩, ⟨['t'], [['a']], []⟩] ∧
    (trackKey ⟨['T'], [['A']], []⟩).map Char.toLower =
      (trackKey ⟨['t'], [['a']], []⟩).map Char.toLower ∧
    (⟨['T'], [['A']], []⟩ : FeedTrack) ≠ ⟨['t'], [['a']], []⟩ := by
  refine ⟨by decide, by decide, by decide⟩

/-- Claim C2 (amended): the candidate list returned by the fetcher
contains no two candidates whose exact artist-colon-title identity
keys are equal; deduplication uses the exact key, so letter case
distinguishes candidates. -/
theorem c2_fetch_dedup_exact (numTracks : Nat)
    (responses : List (List FeedTrack)) :
    ((fetch_lastfm_tracks numTracks responses).map trackKey).Nodup := by
  have h := fetchLoop_inv (numTracks * 3) 20 responses [] []
    (by simp) (by simp) (by simp)
  exact h.1

/-- Claim C10: every candidate in the fetcher's returned sequence has
a non-empty title and a non-empty first artist name; entries missing
either field are excluded before they reach the deduplicated list. -/
theorem c10_fetch_nonempty_fields (numTracks : Nat)
    (responses : List (List FeedTrack)) (t : FeedTrack)
    (ht : t ∈ fetch_lastfm_tracks numTracks responses) :
    t.name ≠ [] ∧ firstArtistName t ≠ [] :=
  (fetchLoop_inv (numTracks * 3) 20 responses [] []
    (by simp) (by simp) (by simp)).2 t ht

theorem c10_witness :
    (⟨['t'], [['a']], []⟩ : FeedTrack).name ≠ [] ∧
    firstArtistName ⟨['t'], [['a']], []⟩ ≠ [] :=
  c10_fetch_nonempty_fields 1 [[⟨['t'], [['a']], []⟩]] _ (by decide)

theorem reconcile_all_success (acq : FeedTrack → AcqOutcome) (target : Nat)
    (hall : ∀ c, acqSuccess (acq c) = true) :
    ∀ (cands : List FeedTrack) (succ : Nat), succ ≤ target →
      target - succ ≤ cands.length →
      (reconcile acq target cands succ).successCount = target ∧
      (reconcile acq target cands succ).consumed = target - succ := by
  intro cands
  induction cands with
  | nil =>
    intro succ h1 h2
    simp only [reconcile, List.length_nil] at h2 ⊢
    omega
  | cons c cs ih =>
    intro succ h1 h2
    by_cases hst : succ < target
    · have hs := hall c
      cases hacq : acq c with
      | alreadyPresent i =>
        simp only [reconcile, if_pos hst, hacq]
        obtain ⟨e1, e2⟩ := ih (succ + 1) (by omega)
          (by simp only [List.length_cons] at h2; omega)
        rw [e1, e2]
        omega
      | acquired info =>
        simp only [reconcile, if_pos hst, hacq]
        obtain ⟨e1, e2⟩ := ih (succ + 1) (by omega)
          (by simp only [List.length_cons] at h2; omega)
        rw [e1, e2]
        omega
      | notFound => rw [hacq] at hs; exact absurd hs (by simp [acqSuccess])
      | downloadFailed => rw [hacq] at hs; exact absurd hs (by simp [acqSuccess])
    · simp only [reconcile, if_neg hst]
      omega

theorem reconcile_exit (acq : FeedTrack → AcqOutcome) (target : Nat) :
    ∀ (cands : List FeedTrack) (succ : Nat), succ ≤ target →
      (reconcile acq target cands succ).successCount = target ∨
      (reconcile acq target cands succ).consumed = cands.length := by
  intro cands
  induction cands with
  | nil => intro succ _; right; rfl
  | cons c cs ih =>
    intro succ h
    by_cases hst : succ < target
    · cases hacq : acq c with
      | alreadyPresent i =>
        simp only [reconcile, if_pos hst, hacq, List.length_cons]
        rcases ih (succ + 1) (by omega) with h' | h'
        · left; exact h'
        · right; omega
      | acquired info =>
        simp only [reconcile, if_pos hst, hacq, List.length_cons]
        rcases ih (succ + 1) (by omega) with h' | h'
        · left; exact h'
        · right; omega
      | notFound =>
        simp only [reconcile, if_pos hst, hacq, List.length_cons]
        rcases ih succ h with h' | h'
        · left; exact h'
        · right; omega
      | downloadFailed =>
        simp only [reconcile, if_pos hst, hacq, List.length_cons]
        rcases ih succ h with h' | h'
        · left; exact h'
        · right; omega
    · left
      simp only [reconcile, if_neg hst]
      omega

/-- Claim C1: when every acquisition attempt succeeds, the sync loop
over a candidate list of size three times the target records exactly
the target count of successes while consuming only the first
target-count candidates; and in general the loop exits exactly when
the success count reaches the target or the candidates are
exhausted. -/
theorem c1_reconciliation (acq : FeedTrack → AcqOutcome) (T : Nat)
    (cands : List FeedTrack)
    (hall : ∀ c, acqSuccess (acq c) = true)
    (hlen : cands.length = 3 * T) :
    ((reconcile acq T cands 0).successCount = T ∧
     (reconcile acq T cands 0).consumed = T) ∧
    ∀ (acq2 : FeedTrack → AcqOutcome) (target2 : Nat)
      (cands2 : List FeedTrack),
      (reconcile acq2 target2 cands2 0).successCount = target2 ∨
      (reconcile acq2 target2 cands2 0).consumed = cands2.length := by
  constructor
  · have h := reconcile_all_success acq T hall cands 0 (Nat.zero_le _) (by omega)
    simpa using h
  · intro acq2 target2 cands2
    exact reconcile_exit acq2 target2 cands2 0 (Nat.zero_le _)

theorem c1_witness :
    (reconcile (fun _ => AcqOutcome.alreadyPresent ['s']) 1
      [⟨['t'], [['a']], []⟩, ⟨['t'], [['a']], []⟩, ⟨['t'], [['a']], []⟩]
      0).successCount = 1 ∧
    (reconcile (fun _ => AcqOutcome.alreadyPresent ['s']) 1
      [⟨['t'], [['a']], []⟩, ⟨['t'], [['a']], []⟩, ⟨['t'], [['a']], []⟩]
      0).consumed = 1 :=
  (c1_reconciliation (fun _ => AcqOutcome.alreadyPresent ['s']) 1
    [⟨['t'], [['a']], []⟩, ⟨['t'], [['a']], []⟩, ⟨['t'], [['a']], []⟩]
    (fun _ => rfl) (by decide)).1

/-- Claim C4 counterexample: with a missing playlist directory and a
failing mkdir call, the error raised during directory preparation
propagates out of the sync even though fetching produced a non-empty
candidate list; in main it is then caught only to exit the process
with status one. -/
theorem c4_counterexample :
    syncAfterFetch envMkdirFail 1 [⟨['t'], [['a']], []⟩] =
      Except.error ['m', 'k', 'd', 'i', 'r'] := rfl

/-- Claim C4 (amended): once fetching has produced candidates, errors
raised during per-candidate library search, catalog search, download,
library scan and playlist update are all caught and handled locally,
so the sync completes; but a failure of the mkdir or chmod call while
creating a missing playlist directory propagates out of the sync and
terminates the process with a non-zero exit. -/
theorem c4_post_fetch_errors (env : SyncEnv) (target : Nat)
    (cands : List FeedTrack)
    (h : env.dirExists = true ∨
      (env.mkdir = Except.ok () ∧ env.chmodDir = Except.ok ())) :
    syncAfterFetch env target cands = Except.ok () := by
  have hp : prepDir env = Except.ok () := by
    rcases h with h | ⟨h1, h2⟩
    · simp [prepDir, h]
    · cases hd : env.dirExists
      · simp [prepDir, hd, h1, h2]
      · simp [prepDir, hd]
  simp [syncAfterFetch, hp]

theorem c4_witness :
    syncAfterFetch envCallsFail 1 [⟨['t'], [['a']], []⟩] = Except.ok () :=
  c4_post_fetch_errors envCallsFail 1 [⟨['t'], [['a']], []⟩]
    (Or.inr ⟨rfl, rfl⟩)

theorem firstPass_eq (lk : NavSearch) :
    ∀ dl : List YtInfo, firstPass lk dl =
      (dl.filterMap (fun t =>
        if hasFields t then searchOnce lk t.artist t.title else none),
       dl.filter (fun t =>
        hasFields t && (searchOnce lk t.artist t.title).isNone)) := by
  intro dl
  induction dl with
  | nil => rfl
  | cons t ts ih =>
    cases hf : hasFields t with
    | false => simp [firstPass, hf, List.filterMap_cons, List.filter_cons, ih]
    | true =>
      cases hs : searchOnce lk t.artist t.title with
      | none => simp [firstPass, hf, hs, List.filterMap_cons, List.filter_cons, ih]
      | some i => simp [firstPass, hf, hs, List.filterMap_cons, List.filter_cons, ih]

theorem retryPass_eq (lk : NavSearch) :
    ∀ nf : List YtInfo, retryPass lk nf =
      nf.filterMap (fun t =>
        if hasFields t then searchOnce lk t.artist t.title else none) := by
  intro nf
  induction nf with
  | nil => rfl
  | cons t ts ih =>
    cases hf : hasFields t with
    | false => simp [retryPass, hf, List.filterMap_cons, ih]
    | true =>
      cases hs : searchOnce lk t.artist t.title with
      | none => simp [retryPass, hf, hs, List.filterMap_cons, ih]
      | some i => simp [retryPass, hf, hs, List.filterMap_cons, ih]

/-- Claim C7: the resolution step makes one pass over the downloaded
tracks and then exactly one retry pass over the not-found ones, so the
returned sequence is the first-pass successes in input order followed
by the retry successes in retry order; a track found only on the retry
contributes its identifier, and a track never found contributes
nothing without raising an error. -/
theorem c7_scan_retry (lk1 lk2 : NavSearch) (dl : List YtInfo) :
    scanResolve lk1 lk2 dl =
      dl.filterMap (fun t =>
        if hasFields t then searchOnce lk1 t.artist t.title else none) ++
      (dl.filter (fun t =>
        hasFields t && (searchOnce lk1 t.artist t.title).isNone)).filterMap
        (fun t =>
          if hasFields t then searchOnce lk2 t.artist t.title else none) ∧
    ∀ t ∈ dl, hasFields t = true → searchOnce lk1 t.artist t.title = none →
      ∀ i, searchOnce lk2 t.artist t.title = some i →
        i ∈ scanResolve lk1 lk2 dl := by
  have heq : scanResolve lk1 lk2 dl =
      dl.filterMap (fun t =>
        if hasFields t then searchOnce lk1 t.artist t.title else none) ++
      (dl.filter (fun t =>
        hasFields t && (searchOnce lk1 t.artist t.title).isNone)).filterMap
        (fun t =>
          if hasFields t then searchOnce lk2 t.artist t.title else none) := by
    unfold scanResolve
    simp only [firstPass_eq, retryPass_eq]
    by_cases h2 : dl.filter (fun t =>
        hasFields t && (searchOnce lk1 t.artist t.title).isNone) = []
    · simp [h2]
    · simp [h2]
  refine ⟨heq, ?_⟩
  intro t ht hf hs1 i hs2
  rw [heq]
  apply List.mem_append_right
  apply List.mem_filterMap.mpr
  refine ⟨t, List.mem_filter.mpr ⟨ht, by simp [hf, hs1]⟩, by simp [hf, hs2]⟩

theorem c7_witness :
    ['s'] ∈ scanResolve (fun _ _ => Except.ok [])
      (fun _ _ => Except.ok [⟨['s']⟩])
      [⟨['v'], ['t'], ['a'], ['b'], [], 1, none, []⟩] :=
  (c7_scan_retry (fun _ _ => Except.ok [])
    (fun _ _ => Except.ok [⟨['s']⟩])
    [⟨['v'], ['t'], ['a'], ['b'], [], 1, none, []⟩]).2
    ⟨['v'], ['t'], ['a'], ['b'], [], 1, none, []⟩
    (by decide) (by decide) (by decide) ['s'] (by decide)

theorem bestScan_le {α : Type} (e : α → Bool) (f : α → Nat) :
    ∀ (rs : List α) (best : Option α) (bs : Nat),
      bs ≤ (bestScan e f rs best bs).2 := by
  intro rs
  induction rs with
  | nil => intro best bs; exact le_refl _
  | cons r rs ih =>
    intro best bs
    cases he : e r with
    | false => simp only [bestScan, he, Bool.false_eq_true, if_false]; exact ih _ _
    | true =>
      by_cases hlt : bs < f r
      · simp only [bestScan, he, if_true, if_pos hlt]
        exact le_trans (le_of_lt hlt) (ih _ _)
      · simp only [bestScan, he, if_true, if_neg hlt]
        exact ih _ _

theorem bestScan_some_ex {α : Type} (e : α → Bool) (f : α → Nat) :
    ∀ (rs : List α) (b : α) (bs : Nat),
      ∃ b', (bestScan e f rs (some b) bs).1 = some b' := by
  intro rs
  induction rs with
  | nil => intro b bs; exact ⟨b, rfl⟩
  | cons r rs ih =>
    intro b bs
    cases he : e r with
    | false => simp only [bestScan, he, Bool.false_eq_true, if_false]; exact ih _ _
    | true =>
      by_cases hlt : bs < f r
      · simp only [bestScan, he, if_true, if_pos hlt]; exact ih _ _
      · simp only [bestScan, he, if_true, if_neg hlt]; exact ih _ _

theorem bestScan_none_iff {α : Type} (e : α → Bool) (f : α → Nat) :
    ∀ (rs : List α) (bs : Nat),
      ((bestScan e f rs none bs).1 = none ↔
        ∀ r ∈ rs, e r = true → f r ≤ bs) := by
  intro rs
  induction rs with
  | nil => intro bs; simp [bestScan]
  | cons r rs ih =>
    intro bs
    cases he : e r with
    | false =>
      simp only [bestScan, he, Bool.false_eq_true, if_false]
      rw [ih bs]
      constructor
      · intro h x hx hex
        rcases List.mem_cons.mp hx with hx | hx
        · subst hx; rw [he] at hex; exact absurd hex (by simp)
        · exact h x hx hex
      · intro h x hx hex
        exact h x (List.mem_cons_of_mem r hx) hex
    | true =>
      by_cases hlt : bs < f r
      · simp only [bestScan, he, if_true, if_pos hlt]
        obtain ⟨b', hb'⟩ := bestScan_some_ex e f rs r (f r)
        rw [hb']
        constructor
        · intro h; exact absurd h (by simp)
        · intro h
          have := h r (List.mem_cons_self r rs) he
          omega
      · simp only [bestScan, he, if_true, if_neg hlt]
        rw [ih bs]
        constructor
        · intro h x hx hex
          rcases List.mem_cons.mp hx with hx | hx
          · subst hx; omega
          · exact h x hx hex
        · intro h x hx hex
          exact h x (List.mem_cons_of_mem r hx) hex

theorem bestScan_snd_ge {α : Type} (e : α → Bool) (f : α → Nat) :
    ∀ (rs : List α) (best : Option α) (bs : Nat) (r : α),
      r ∈ rs → e r = true → f r ≤ (bestScan e f rs best bs).2 := by
  intro rs
  induction rs with
  | nil => intro best bs r hr; exact absurd hr (List.not_mem_nil r)
  | cons x rs ih =>
    intro best bs r hr her
    rcases List.mem_cons.mp hr with hr | hr
    · subst hr
      simp only [bestScan, her, if_true]
      by_cases hlt : bs < f r
      · rw [if_pos hlt]; exact bestScan_le e f rs _ _
      · rw [if_neg hlt]
        exact le_trans (le_of_not_lt hlt) (bestScan_le e f rs _ _)
    · cases he : e x with
      | false =>
        simp only [bestScan, he, Bool.false_eq_true, if_false]
        exact ih _ _ r hr her
      | true =>
        by_cases hlt : bs < f x
        · simp only [bestScan, he, if_true, if_pos hlt]; exact ih _ _ r hr her
        · simp only [bestScan, he, if_true, if_neg hlt]; exact ih _ _ r hr her

theorem bestScan_char {α : Type} (e : α → Bool) (f : α → Nat) :
    ∀ (rs : List α) (acc : Option α) (bs : Nat),
      ((bestScan e f rs acc bs).2 = bs → (bestScan e f rs acc bs).1 = acc) ∧
      (bs < (bestScan e f rs acc bs).2 →
        (bestScan e f rs acc bs).1 =
          rs.find? (fun r => e r && (f r == (bestScan e f rs acc bs).2))) := by
  intro rs
  induction rs with
  | nil =>
    intro acc bs
    exact ⟨fun _ => rfl, fun h => absurd h (lt_irrefl bs)⟩
  | cons r rs ih =>
    intro acc bs
    cases he : e r with
    | false =>
      have hred : bestScan e f (r :: rs) acc bs = bestScan e f rs acc bs := by
        simp [bestScan, he]
      rw [hred]
      refine ⟨(ih acc bs).1, ?_⟩
      intro h
      rw [List.find?_cons_of_neg]
      · exact (ih acc bs).2 h
      · simp [he]
    | true =>
      by_cases hlt : bs < f r
      · have hred : bestScan e f (r :: rs) acc bs =
            bestScan e f rs (some r) (f r) := by
          simp [bestScan, he, hlt]
        rw [hred]
        have hge : f r ≤ (bestScan e f rs (some r) (f r)).2 :=
          bestScan_le e f rs _ _
        constructor
        · intro h2
          omega
        · intro _
          rcases eq_or_lt_of_le hge with heq | hlt2
          · have h1 : (bestScan e f rs (some r) (f r)).1 = some r :=
              (ih (some r) (f r)).1 heq.symm
            rw [h1, List.find?_cons_of_pos]
            simp only [he, Bool.true_and]
            exact beq_iff_eq.mpr heq
          · have h2 : (bestScan e f rs (some r) (f r)).1 =
                rs.find? (fun x => e x &&
                  (f x == (bestScan e f rs (some r) (f r)).2)) :=
              (ih (some r) (f r)).2 hlt2
            rw [h2, List.find?_cons_of_neg]
            simp only [he, Bool.true_and]
            intro hbeq
            have := eq_of_beq hbeq
            omega
      · have hred : bestScan e f (r :: rs) acc bs = bestScan e f rs acc bs := by
          simp [bestScan, he, hlt]
        rw [hred]
        refine ⟨(ih acc bs).1, ?_⟩
        intro h
        rw [List.find?_cons_of_neg]
        · exact (ih acc bs).2 h
        · simp only [he, Bool.true_and]
          intro hbeq
          have := eq_of_beq hbeq
          have hle : f r ≤ bs := le_of_not_lt hlt
          omega

theorem eligible_score_ge_two (nA nT : Str) (r : YtResult)
    (h : eligibleB nA nT r = true) : 2 ≤ resultScore nA nT r := by
  simp only [eligibleB, Bool.and_eq_true] at h
  obtain ⟨ha, ht⟩ := h
  simp only [resultScore]
  split_ifs <;> simp_all

theorem selectBestMatch_eq (artist title : Str) (results : List YtResult) :
    selectBestMatch artist title results =
      match (bestScan (eligibleB (normalize artist) (normalize title))
          (resultScore (normalize artist) (normalize title)) results none 0).1 with
      | none => none
      | some b =>
        if (bestScan (eligibleB (normalize artist) (normalize title))
            (resultScore (normalize artist) (normalize title)) results none 0).2 < 2
        then none else some b := rfl

/-- Claim C5: the match scorer selects the eligible result with the
highest score, breaking ties in favour of the result seen first, and
returns no match exactly when no result is eligible with score at
least two (eligibility being mutual substring containment of both the
normalized artist and the normalized title). -/
theorem c5_select_best (artist title : Str) (results : List YtResult) :
    (selectBestMatch artist title results = none ↔
      ∀ r ∈ results,
        ¬(eligibleB (normalize artist) (normalize title) r = true ∧
          2 ≤ resultScore (normalize artist) (normalize title) r)) ∧
    (∀ b, selectBestMatch artist title results = some b →
      b ∈ results ∧
      eligibleB (normalize artist) (normalize title) b = true ∧
      (∀ r ∈ results,
        eligibleB (normalize artist) (normalize title) r = true →
        resultScore (normalize artist) (normalize title) r ≤
          resultScore (normalize artist) (normalize title) b) ∧
      ∃ l m, results = l ++ b :: m ∧
        ∀ x ∈ l, eligibleB (normalize artist) (normalize title) x = true →
          resultScore (normalize artist) (normalize title) x <
            resultScore (normalize artist) (normalize title) b) := by
  rw [selectBestMatch_eq]
  set nA := normalize artist with hnA
  set nT := normalize title with hnT
  set e := eligibleB nA nT with hE
  set f := resultScore nA nT with hF
  have helig : ∀ r, e r = true → 2 ≤ f r := fun r h =>
    eligible_score_ge_two nA nT r h
  have hchar := bestScan_char e f results none 0
  have hiff0 := bestScan_none_iff e f results 0
  constructor
  · constructor
    · intro hnone r hr hand
      cases hcase : (bestScan e f results none 0).1 with
      | none =>
        have hle := (hiff0.mp hcase) r hr hand.1
        have := hand.2
        omega
      | some b =>
        rw [hcase] at hnone
        have hlt2 : (bestScan e f results none 0).2 < 2 := by
          by_contra hge
          simp only [if_neg hge] at hnone
          exact Option.noConfusion hnone
        have hpos : 0 < (bestScan e f results none 0).2 := by
          rcases Nat.eq_zero_or_pos (bestScan e f results none 0).2 with hz | hp
          · have := hchar.1 hz
            rw [this] at hcase
            exact Option.noConfusion hcase
          · exact hp
        have hfind := hchar.2 hpos
        rw [hfind] at hcase
        obtain ⟨hpred, -⟩ := List.find?_eq_some.mp hcase
        simp only [Bool.and_eq_true] at hpred
        have hfb : f b = (bestScan e f results none 0).2 := eq_of_beq hpred.2
        have := helig b hpred.1
        omega
    · intro hall
      have hnone : (bestScan e f results none 0).1 = none := by
        apply hiff0.mpr
        intro r hr her
        exact absurd ⟨her, helig r her⟩ (hall r hr)
      rw [hnone]
  · intro b hb
    cases hcase : (bestScan e f results none 0).1 with
    | none =>
      rw [hcase] at hb
      exact Option.noConfusion hb
    | some b' =>
      rw [hcase] at hb
      by_cases hlt2 : (bestScan e f results none 0).2 < 2
      · simp only [if_pos hlt2] at hb
        exact Option.noConfusion hb
      · simp only [if_neg hlt2, Option.some.injEq] at hb
        subst hb
        have hpos : 0 < (bestScan e f results none 0).2 := by omega
        have hfind := hchar.2 hpos
        rw [hfind] at hcase
        obtain ⟨hpred, l, m, heq, hfirst⟩ := List.find?_eq_some.mp hcase
        simp only [Bool.and_eq_true] at hpred
        have hfb : f b' = (bestScan e f results none 0).2 := eq_of_beq hpred.2
        refine ⟨?_, hpred.1, ?_, l, m, heq, ?_⟩
        · rw [heq]
          exact List.mem_append_right l (List.mem_cons_self b' m)
        · intro r hr her
          have := bestScan_snd_ge e f results none 0 r hr her
          omega
        · intro x hx hex
          have hxr : x ∈ results := by
            rw [heq]
            exact List.mem_append_left _ hx
          have hle := bestScan_snd_ge e f results none 0 x hxr hex
          have hne := hfirst x hx
          simp only [Bool.not_eq_eq_eq_not, Bool.not_true, Bool.and_eq_false_iff] at hne
          rcases hne with hne | hne
          · rw [hex] at hne
            exact absurd hne (by simp)
          · have : f x ≠ (bestScan e f results none 0).2 := by
              intro hcontra
              rw [hcontra] at hne
              simp at hne
            omega

theorem c5_witness :
    (⟨['v'], ['b'], [['a']]⟩ : YtResult) ∈
      [(⟨['v'], ['b'], [['a']]⟩ : YtResult)] :=
  ((c5_select_best ['a'] ['b'] [⟨['v'], ['b'], [['a']]⟩]).2
    ⟨['v'], ['b'], [['a']]⟩ (by decide)).1

end NavidroFM
